import Mathlib

/-!
Shallow embedding of `src/server.py` (async-download-service).

The program is an aiohttp microservice with one interesting handler,
`archive` (src/server.py lines 14-53): it maps an archive key to a
directory under a configured root, 404s when the path does not exist,
otherwise prepares a streaming HTTP response (status 200 plus a fixed
Content-Disposition header), spawns a `zip -r - .` subprocess with the
directory as working directory, and relays the subprocess stdout to the
response in reads of at most 1024*100 bytes with a fixed sleep after
each chunk.  A ConnectionResetError from the write is caught and logged;
a finally block kills and reaps the subprocess when its returncode is
still unset.

The embedding is executable: the handler is a pure function from a
`World` (the environment the Python code observes: the filesystem
oracle, whether the subprocess launch succeeds, the arrival pattern of
subprocess stdout bytes, the outcome of each response write, and the
subprocess returncode observed by the finally block) to the trace of
observable events it performs plus its final outcome.
-/

namespace Server

/-- Byte strings are modelled as lists of naturals (one per byte). -/
abbrev Bytes := List Nat

/-- `read(n=1024 * 100)` at src/server.py line 38: the maximal chunk size. -/
def CHUNK_SIZE : Nat := 1024 * 100

/-- The subprocess command at src/server.py lines 28-30: `zip -r - .`. -/
def ZIP_CMD : List String := ["zip", "-r", "-", "."]

/-- The headers passed to `web.StreamResponse` at src/server.py lines 21-25. -/
def RESPONSE_HEADERS : List (String × String) :=
  [("Content-Disposition", "Attachment;filename=wedding_photos.zip")]

/-- Whether a string starts with a slash (computes on the character
list, so that concrete instances evaluate inside the kernel). -/
def startsWithSlash (s : String) : Bool :=
  match s.data with
  | [] => false
  | c :: _ => c = '/'

/-- Whether a string ends with a slash. -/
def endsWithSlash (s : String) : Bool :=
  match s.data.getLast? with
  | none => false
  | some c => c = '/'

/-- `os.path.join` for POSIX paths, as used at src/server.py line 16:
an absolute second component discards the first; otherwise a slash is
inserted unless the first component is empty or already ends in one. -/
def os_path_join (a b : String) : String :=
  if startsWithSlash b then b
  else if a = "" ∨ endsWithSlash a then a ++ b
  else a ++ "/" ++ b

/-- The candidate path computed at src/server.py line 16:
`path_to_photos = os.path.join(photo_dir, archive_hash)`. -/
def path_to_photos (photo_dir archive_hash : String) : String :=
  os_path_join photo_dir archive_hash

/-- Outcome of one `response.write` call, chosen by the environment:
it succeeds, raises ConnectionResetError, or raises some other error
(identified by an abstract code). -/
inductive WriteOutcome where
  | ok
  | connReset
  | err (e : Nat)
  deriving DecidableEq

/-- The environment observed by one execution of the handler. -/
structure World where
  /-- `os.path.exists` oracle (src/server.py line 18). -/
  path_exists : String → Bool
  /-- Whether the candidate path is a directory.  The handler never
  consults this: the code checks mere existence. -/
  is_dir : String → Bool
  /-- Whether `asyncio.create_subprocess_exec` succeeds (line 28). -/
  spawn_ok : Bool
  /-- Arrival segments of the subprocess stdout: the data available at
  successive read moments, in order; their concatenation is the full
  compressor output.  End of stream is reached when all segments are
  consumed. -/
  stdout : List Bytes
  /-- Outcome of the i-th `response.write`; writes beyond the list
  succeed. -/
  write_outcomes : List WriteOutcome
  /-- The value of `process.returncode` when the finally block at
  src/server.py line 49 inspects it (`none` = not yet exited). -/
  returncode_at_cleanup : Option Int

/-- Observable events performed by the handler, in order. -/
inductive Event where
  /-- `await response.prepare(request)` (line 26): commits the status
  line and headers to the client. -/
  | prepare (status : Nat) (headers : List (String × String))
  /-- `await asyncio.create_subprocess_exec(...)` (lines 28-34). -/
  | spawn (cmd : List String) (cwd : String)
  /-- `logger.info(f'...: Sending archive chunk ...')` (line 40). -/
  | logChunk (hash : String)
  /-- `await response.write(data)` succeeding (line 41). -/
  | write (data : Bytes)
  /-- `await asyncio.sleep(delay)` (line 43). -/
  | sleep (seconds : Nat)
  /-- `logger.info(f'...: Download was interrupted')` (line 46). -/
  | logInterrupted (hash : String)
  /-- `process.kill()` (line 50). -/
  | kill
  /-- `await process.communicate()` reaping the process (line 51). -/
  | reap
  deriving DecidableEq

/-- How the `while` loop at src/server.py lines 37-43 ended. -/
inductive LoopResult where
  | normal
  | connReset
  | err (e : Nat)
  deriving DecidableEq

/-- Final outcome of the handler. -/
inductive HandlerResult where
  /-- `raise web.HTTPNotFound(reason=...)` (line 19). -/
  | notFound (status : Nat) (reason : String)
  /-- `create_subprocess_exec` raised; the exception propagates. -/
  | raisedSpawnError
  /-- An error other than ConnectionResetError propagates out. -/
  | raised (e : Nat)
  /-- The handler returned its StreamResponse; `interrupted` records
  whether the ConnectionResetError branch ran. -/
  | response (interrupted : Bool)
  deriving DecidableEq

/-- Fuel-driven worker for `chunkify`; `b.length` fuel always
suffices because every recursive step removes `CHUNK_SIZE ≥ 1` bytes. -/
def chunkifyFuel : Nat → Bytes → List Bytes
  | 0, b => [b]
  | fuel + 1, b =>
    if b.length ≤ CHUNK_SIZE then [b]
    else b.take CHUNK_SIZE :: chunkifyFuel fuel (b.drop CHUNK_SIZE)

/-- Successive results of `process.stdout.read(n=1024 * 100)` on one
arrival segment: the stream returns at most `CHUNK_SIZE` bytes per
read, leaving the remainder buffered for the next read. -/
def chunkify (b : Bytes) : List Bytes :=
  chunkifyFuel b.length b

/-- The sequence of chunks the relay loop reads from the stream, given
the arrival segments of the subprocess stdout. -/
def readChunks (stdout : List Bytes) : List Bytes :=
  stdout.flatMap chunkify

/-- The relay loop at src/server.py lines 37-43, over the sequence of
read results: while not at end of stream, read a chunk, log, write it
(the write may raise), then sleep `delay` seconds.  Returns the events
performed inside the loop and how the loop ended. -/
def relaySteps (delay : Nat) (hash : String) :
    List Bytes → List WriteOutcome → List Event × LoopResult
  | [], _ => ([], .normal)
  | c :: rest, outs =>
    match outs.headD .ok with
    | .ok =>
      let r := relaySteps delay hash rest outs.tail
      (.logChunk hash :: .write c :: .sleep delay :: r.1, r.2)
    | .connReset => ([.logChunk hash], .connReset)
    | .err e => ([.logChunk hash], .err e)

/-- The finally block at src/server.py lines 48-51: if `returncode` is
still unset, kill the process and reap it with `communicate()`. -/
def cleanupEvents (rc : Option Int) : List Event :=
  match rc with
  | none => [.kill, .reap]
  | some _ => []

/-- The `archive` handler, src/server.py lines 14-53.  Returns the
ordered trace of observable events and the final outcome. -/
def archive (photo_dir : String) (delay : Nat) (w : World)
    (archive_hash : String) : List Event × HandlerResult :=
  let path := path_to_photos photo_dir archive_hash
  if ¬ w.path_exists path then
    ([], .notFound 404 "Archive does not exist or was removed.")
  else if ¬ w.spawn_ok then
    ([.prepare 200 RESPONSE_HEADERS], .raisedSpawnError)
  else
    let pre : List Event := [.prepare 200 RESPONSE_HEADERS, .spawn ZIP_CMD path]
    let rel := relaySteps delay archive_hash (readChunks w.stdout) w.write_outcomes
    let post := cleanupEvents w.returncode_at_cleanup
    match rel.2 with
    | .normal => (pre ++ rel.1 ++ post, .response false)
    | .connReset =>
      (pre ++ rel.1 ++ [.logInterrupted archive_hash] ++ post, .response true)
    | .err e => (pre ++ rel.1 ++ post, .raised e)

/-- The chunks written to the response stream, in order, extracted from
an event trace. -/
def writtenBytes (evs : List Event) : List Bytes :=
  evs.filterMap fun e =>
    match e with
    | .write d => some d
    | _ => none

/-- `delay = app_args.delay or 0` at src/server.py line 89: Python `or`
returns the right operand when the left is falsy (`None` or `0`). -/
def main_delay (arg_delay : Option Nat) : Nat :=
  match arg_delay with
  | none => 0
  | some v => if v = 0 then 0 else v

/-- `photo_dir = app_args.path if app_args.path is not None else
'./test_photos'` at src/server.py line 90. -/
def main_photo_dir (arg_path : Option String) : String :=
  match arg_path with
  | none => "./test_photos"
  | some p => p

/-! Path resolution, segment level, for the traversal claim.  A path is
resolved by splitting it on slashes and normalising the segment list:
empty and `.` segments vanish and `..` removes the preceding segment
(or survives when there is none to remove). -/

/-- Normalisation worker; `acc` holds the resolved segments in reverse. -/
def normAux : List String → List String → List String
  | [], acc => acc
  | s :: rest, acc =>
    if s = "" ∨ s = "." then normAux rest acc
    else if s = ".." then
      match acc with
      | [] => normAux rest [".."]
      | t :: acc2 => if t = ".." then normAux rest (s :: t :: acc2) else normAux rest acc2
    else normAux rest (s :: acc)

/-- Resolve a segment list: drop empty and `.` segments and cancel
`..` against the preceding segment. -/
def normSegs (segs : List String) : List String :=
  (normAux segs []).reverse

/-- Split worker: `cur` holds the characters of the pending segment in
reverse. -/
def splitSlashAux : List Char → List Char → List String
  | [], cur => [String.mk cur.reverse]
  | c :: rest, cur =>
    if c = '/' then String.mk cur.reverse :: splitSlashAux rest []
    else splitSlashAux rest (c :: cur)

/-- Split a path into its slash-separated segments. -/
def splitSlash (s : String) : List String :=
  splitSlashAux s.data []

/-- Whether path `p` resolves to a location inside directory `root`:
the resolved segments of `root` are an initial run of the resolved
segments of `p`. -/
def insideRoot (root p : String) : Bool :=
  let r := normSegs (splitSlash root)
  let q := normSegs (splitSlash p)
  q.take r.length = r

/-! Concrete environments used to instantiate the theorems below. -/

/-- A small compressor output: two data segments and one empty read
(the loop body running once more before end of stream is detected). -/
def sampleBytes : List Bytes := [[10, 20, 30], [], [40]]

/-- Existing path, successful spawn, all writes succeed, process still
running at cleanup time. -/
def wAllOk : World := ⟨fun _ => true, fun _ => true, true, sampleBytes, [], none⟩

/-- Second write raises ConnectionResetError. -/
def wReset : World :=
  ⟨fun _ => true, fun _ => true, true, sampleBytes, [.ok, .connReset], none⟩

/-- First write raises an error other than ConnectionResetError. -/
def wErr : World := ⟨fun _ => true, fun _ => true, true, sampleBytes, [.err 7], none⟩

/-- The subprocess launch fails. -/
def wNoSpawn : World := ⟨fun _ => true, fun _ => true, false, [], [], none⟩

/-- The candidate path does not exist. -/
def wMissing : World := ⟨fun _ => false, fun _ => false, true, [], [], none⟩

/-- The candidate path exists but is a regular file, not a directory. -/
def wFile : World := ⟨fun _ => true, fun _ => false, true, [[1]], [], none⟩

/-- The subprocess has already exited when the finally block runs. -/
def wDone : World := ⟨fun _ => true, fun _ => true, true, [[5]], [], some 0⟩

/-! Helper lemmas about the embedded operations. -/

theorem chunkifyFuel_flatten (fuel : Nat) (b : Bytes) :
    (chunkifyFuel fuel b).flatten = b := by
  induction fuel generalizing b with
  | zero => simp [chunkifyFuel]
  | succ n ih =>
    by_cases h : b.length ≤ CHUNK_SIZE
    · simp [chunkifyFuel, h]
    · simp [chunkifyFuel, h, ih, List.take_append_drop]

theorem chunkify_flatten (b : Bytes) : (chunkify b).flatten = b :=
  chunkifyFuel_flatten b.length b

theorem chunkifyFuel_length_le (fuel : Nat) (b : Bytes)
    (hb : b.length ≤ fuel + CHUNK_SIZE) :
    ∀ c ∈ chunkifyFuel fuel b, c.length ≤ CHUNK_SIZE := by
  induction fuel generalizing b with
  | zero =>
    intro c hc
    simp [chunkifyFuel] at hc
    subst hc
    simpa using hb
  | succ n ih =>
    intro c hc
    by_cases h : b.length ≤ CHUNK_SIZE
    · simp [chunkifyFuel, h] at hc
      subst hc
      exact h
    · simp only [chunkifyFuel, if_neg h, List.mem_cons] at hc
      rcases hc with rfl | hc
      · simp [List.length_take]
      · refine ih (b.drop CHUNK_SIZE) ?_ c hc
        simp only [List.length_drop]
        simp only [CHUNK_SIZE] at hb h ⊢
        omega

theorem chunkify_length_le (b : Bytes) :
    ∀ c ∈ chunkify b, c.length ≤ CHUNK_SIZE :=
  chunkifyFuel_length_le b.length b (Nat.le_add_right _ _)

theorem readChunks_flatten (s : List Bytes) :
    (readChunks s).flatten = s.flatten := by
  induction s with
  | nil => simp [readChunks]
  | cons b rest ih =>
    simp only [readChunks, List.flatMap_cons, List.flatten_append, List.flatten_cons]
    rw [chunkify_flatten]
    simp only [readChunks] at ih
    rw [ih]

theorem readChunks_length_le (s : List Bytes) :
    ∀ c ∈ readChunks s, c.length ≤ CHUNK_SIZE := by
  intro c hc
  simp only [readChunks, List.mem_flatMap] at hc
  rcases hc with ⟨b, _, hcb⟩
  exact chunkify_length_le b c hcb

theorem outcomes_tail_ok {outs : List WriteOutcome}
    (h : ∀ o ∈ outs, o = WriteOutcome.ok) :
    ∀ o ∈ outs.tail, o = WriteOutcome.ok := by
  cases outs with
  | nil => simp
  | cons a as =>
    intro o ho
    exact h o (List.mem_cons_of_mem a ho)

theorem relaySteps_allOk (delay : Nat) (hash : String) (chunks : List Bytes)
    (outs : List WriteOutcome) (h : ∀ o ∈ outs, o = WriteOutcome.ok) :
    relaySteps delay hash chunks outs =
      (chunks.flatMap fun c =>
        [Event.logChunk hash, Event.write c, Event.sleep delay],
       LoopResult.normal) := by
  induction chunks generalizing outs with
  | nil => simp [relaySteps]
  | cons c rest ih =>
    have hhead : outs.headD WriteOutcome.ok = WriteOutcome.ok := by
      cases outs with
      | nil => rfl
      | cons a as => exact h a (List.mem_cons_self a as)
    simp only [relaySteps, hhead]
    rw [ih outs.tail (outcomes_tail_ok h)]
    simp [List.flatMap_cons]

theorem relaySteps_events_mem (delay : Nat) (hash : String) (chunks : List Bytes)
    (outs : List WriteOutcome) :
    ∀ e ∈ (relaySteps delay hash chunks outs).1,
      e = Event.logChunk hash ∨ (∃ c, e = Event.write c) ∨ e = Event.sleep delay := by
  induction chunks generalizing outs with
  | nil => simp [relaySteps]
  | cons c rest ih =>
    intro e he
    cases houts : outs.headD WriteOutcome.ok with
    | ok =>
      simp only [relaySteps, houts, List.mem_cons] at he
      rcases he with rfl | rfl | rfl | he
      · exact Or.inl rfl
      · exact Or.inr (Or.inl ⟨c, rfl⟩)
      · exact Or.inr (Or.inr rfl)
      · exact ih outs.tail e he
    | connReset =>
      simp only [relaySteps, houts, List.mem_cons, List.not_mem_nil, or_false] at he
      exact Or.inl he
    | err er =>
      simp only [relaySteps, houts, List.mem_cons, List.not_mem_nil, or_false] at he
      exact Or.inl he

theorem writtenBytes_append (l1 l2 : List Event) :
    writtenBytes (l1 ++ l2) = writtenBytes l1 ++ writtenBytes l2 := by
  simp [writtenBytes, List.filterMap_append]

theorem writtenBytes_chunkTrace (delay : Nat) (hash : String) (chunks : List Bytes) :
    writtenBytes (chunks.flatMap fun c =>
      [Event.logChunk hash, Event.write c, Event.sleep delay]) = chunks := by
  induction chunks with
  | nil => simp [writtenBytes]
  | cons c rest ih =>
    simp only [List.flatMap_cons, writtenBytes_append]
    rw [ih]
    simp [writtenBytes]

/-- Unfolding of the handler on the streaming path (path exists and the
subprocess launch succeeds). -/
theorem archive_eq_streaming (photo_dir : String) (delay : Nat) (w : World)
    (hash : String)
    (hex : w.path_exists (path_to_photos photo_dir hash) = true)
    (hsp : w.spawn_ok = true) :
    archive photo_dir delay w hash =
      (match (relaySteps delay hash (readChunks w.stdout) w.write_outcomes).2 with
       | .normal =>
         ([Event.prepare 200 RESPONSE_HEADERS,
           Event.spawn ZIP_CMD (path_to_photos photo_dir hash)] ++
            (relaySteps delay hash (readChunks w.stdout) w.write_outcomes).1 ++
            cleanupEvents w.returncode_at_cleanup,
          HandlerResult.response false)
       | .connReset =>
         ([Event.prepare 200 RESPONSE_HEADERS,
           Event.spawn ZIP_CMD (path_to_photos photo_dir hash)] ++
            (relaySteps delay hash (readChunks w.stdout) w.write_outcomes).1 ++
            [Event.logInterrupted hash] ++ cleanupEvents w.returncode_at_cleanup,
          HandlerResult.response true)
       | .err e =>
         ([Event.prepare 200 RESPONSE_HEADERS,
           Event.spawn ZIP_CMD (path_to_photos photo_dir hash)] ++
            (relaySteps delay hash (readChunks w.stdout) w.write_outcomes).1 ++
            cleanupEvents w.returncode_at_cleanup,
          HandlerResult.raised e)) := by
  simp only [archive, hex, hsp]
  simp

/-- Segments that survive normalisation when no `..` is involved:
everything except empty and `.` segments. -/
def keepSeg (s : String) : Bool :=
  if s = "" ∨ s = "." then false else true

theorem normAux_append (xs ys acc : List String) :
    normAux (xs ++ ys) acc = normAux ys (normAux xs acc) := by
  induction xs generalizing acc with
  | nil => simp [normAux]
  | cons s rest ih =>
    by_cases h1 : s = "" ∨ s = "."
    · simp [normAux, h1, ih]
    · by_cases h2 : s = ".."
      · cases acc with
        | nil => simp [normAux, h1, h2, ih]
        | cons t acc2 =>
          by_cases h3 : t = ".."
          · simp [normAux, h1, h2, h3, ih]
          · simp [normAux, h1, h2, h3, ih]
      · simp [normAux, h1, h2, ih]

theorem normAux_no_parent (key acc : List String) (h : ".." ∉ key) :
    normAux key acc = (key.filter keepSeg).reverse ++ acc := by
  induction key generalizing acc with
  | nil => simp [normAux]
  | cons s rest ih =>
    have hs : s ≠ ".." := fun hc => h (hc ▸ List.mem_cons_self s rest)
    have hrest : ".." ∉ rest := fun hc => h (List.mem_cons_of_mem s hc)
    by_cases h1 : s = "" ∨ s = "."
    · simp [normAux, h1, keepSeg, ih _ hrest, List.filter_cons]
    · simp [normAux, h1, hs, keepSeg, ih _ hrest, List.filter_cons]

theorem normSegs_append_no_parent (root key : List String) (h : ".." ∉ key) :
    normSegs (root ++ key) = normSegs root ++ key.filter keepSeg := by
  simp only [normSegs, normAux_append, normAux_no_parent key _ h]
  simp [List.reverse_append]

theorem relaySteps_no_kill (delay : Nat) (hash : String) (chunks : List Bytes)
    (outs : List WriteOutcome) :
    Event.kill ∉ (relaySteps delay hash chunks outs).1 := by
  intro hmem
  rcases relaySteps_events_mem delay hash chunks outs _ hmem with h | ⟨c, h⟩ | h <;>
    simp at h

theorem relaySteps_no_reap (delay : Nat) (hash : String) (chunks : List Bytes)
    (outs : List WriteOutcome) :
    Event.reap ∉ (relaySteps delay hash chunks outs).1 := by
  intro hmem
  rcases relaySteps_events_mem delay hash chunks outs _ hmem with h | ⟨c, h⟩ | h <;>
    simp at h

/-- On the streaming path the handler trace always ends with the finally
block events, and neither kill nor reap occurs earlier. -/
theorem archive_trace_split (photo_dir : String) (delay : Nat) (w : World)
    (hash : String)
    (hex : w.path_exists (path_to_photos photo_dir hash) = true)
    (hsp : w.spawn_ok = true) :
    ∃ pre, (archive photo_dir delay w hash).1 =
        pre ++ cleanupEvents w.returncode_at_cleanup ∧
      Event.kill ∉ pre ∧ Event.reap ∉ pre := by
  rw [archive_eq_streaming photo_dir delay w hash hex hsp]
  cases hrel : (relaySteps delay hash (readChunks w.stdout) w.write_outcomes).2 with
  | normal =>
    refine ⟨[Event.prepare 200 RESPONSE_HEADERS,
      Event.spawn ZIP_CMD (path_to_photos photo_dir hash)] ++
      (relaySteps delay hash (readChunks w.stdout) w.write_outcomes).1, ?_, ?_, ?_⟩
    · simp [List.append_assoc]
    · simp [relaySteps_no_kill]
    · simp [relaySteps_no_reap]
  | connReset =>
    refine ⟨[Event.prepare 200 RESPONSE_HEADERS,
      Event.spawn ZIP_CMD (path_to_photos photo_dir hash)] ++
      (relaySteps delay hash (readChunks w.stdout) w.write_outcomes).1 ++
      [Event.logInterrupted hash], ?_, ?_, ?_⟩
    · simp [List.append_assoc]
    · simp [relaySteps_no_kill]
    · simp [relaySteps_no_reap]
  | err e =>
    refine ⟨[Event.prepare 200 RESPONSE_HEADERS,
      Event.spawn ZIP_CMD (path_to_photos photo_dir hash)] ++
      (relaySteps delay hash (readChunks w.stdout) w.write_outcomes).1, ?_, ?_, ?_⟩
    · simp [List.append_assoc]
    · simp [relaySteps_no_kill]
    · simp [relaySteps_no_reap]

/-! Claim theorems. -/

/-- C1: whenever the subprocess was started, every exit path of the
relay loop (normal end of stream, client disconnect, or any other
error) ends with the finally-block events: when the subprocess has not
yet exited at that point it is killed and then reaped, so no
compression session outlives its request. -/
theorem archive_cleanup_every_exit_path (photo_dir : String) (delay : Nat)
    (w : World) (hash : String)
    (hex : w.path_exists (path_to_photos photo_dir hash) = true)
    (hsp : w.spawn_ok = true) :
    ∃ pre, (archive photo_dir delay w hash).1 =
        pre ++ cleanupEvents w.returncode_at_cleanup ∧
      (w.returncode_at_cleanup = none →
        cleanupEvents w.returncode_at_cleanup = [Event.kill, Event.reap]) := by
  obtain ⟨pre, hpre, -, -⟩ := archive_trace_split photo_dir delay w hash hex hsp
  exact ⟨pre, hpre, fun h => by rw [h]; rfl⟩

/-- C1 witness: in a concrete run that terminates normally the trace
ends with the kill and reap events. -/
theorem archive_cleanup_every_exit_path_witness :
    ∃ pre, (archive "./test_photos" 0 wAllOk "abc").1 =
        pre ++ cleanupEvents wAllOk.returncode_at_cleanup ∧
      (wAllOk.returncode_at_cleanup = none →
        cleanupEvents wAllOk.returncode_at_cleanup = [Event.kill, Event.reap]) :=
  archive_cleanup_every_exit_path "./test_photos" 0 wAllOk "abc" rfl rfl

/-- C9: the finally block sends kill only when the returncode is still
unset; a subprocess that already exited is never killed nor reaped, and
when kill is sent the process is reaped exactly once. -/
theorem archive_kill_only_when_running (photo_dir : String) (delay : Nat)
    (w : World) (hash : String)
    (hex : w.path_exists (path_to_photos photo_dir hash) = true)
    (hsp : w.spawn_ok = true) :
    ((∃ rc, w.returncode_at_cleanup = some rc) →
        Event.kill ∉ (archive photo_dir delay w hash).1 ∧
        Event.reap ∉ (archive photo_dir delay w hash).1) ∧
    (w.returncode_at_cleanup = none →
        (archive photo_dir delay w hash).1.count Event.kill = 1 ∧
        (archive photo_dir delay w hash).1.count Event.reap = 1) := by
  obtain ⟨pre, hpre, hk, hr⟩ := archive_trace_split photo_dir delay w hash hex hsp
  constructor
  · rintro ⟨rc, hrc⟩
    rw [hpre, hrc]
    simp [cleanupEvents, hk, hr]
  · intro hrc
    rw [hpre, hrc]
    simp only [cleanupEvents, List.count_append]
    rw [List.count_eq_zero.mpr hk, List.count_eq_zero.mpr hr]
    constructor <;> decide

/-- C9 witness: concrete runs with an already-exited subprocess (no
kill, no reap) and with a still-running one (exactly one kill and one
reap). -/
theorem archive_kill_only_when_running_witness :
    (Event.kill ∉ (archive "./test_photos" 0 wDone "abc").1 ∧
      Event.reap ∉ (archive "./test_photos" 0 wDone "abc").1) ∧
    ((archive "./test_photos" 0 wAllOk "abc").1.count Event.kill = 1 ∧
      (archive "./test_photos" 0 wAllOk "abc").1.count Event.reap = 1) :=
  ⟨(archive_kill_only_when_running "./test_photos" 0 wDone "abc" rfl rfl).1 ⟨0, rfl⟩,
   (archive_kill_only_when_running "./test_photos" 0 wAllOk "abc" rfl rfl).2 rfl⟩

/-- C2 (amended): when the candidate path, the archive root joined with
the archive key, does not exist, the handler fails with HTTP 404 and
reason "Archive does not exist or was removed.", starts no subprocess
and writes nothing: its trace is empty.  (The code checks mere
existence, not directory-ness, so streaming proceeds for any existing
path, including a regular file.) -/
theorem archive_missing_path_404 (photo_dir : String) (delay : Nat) (w : World)
    (hash : String)
    (hmiss : w.path_exists (path_to_photos photo_dir hash) = false) :
    archive photo_dir delay w hash =
      ([], HandlerResult.notFound 404 "Archive does not exist or was removed.") := by
  simp [archive, hmiss]

/-- C2 witness: concrete missing path gives the 404 outcome with an
empty trace. -/
theorem archive_missing_path_404_witness :
    archive "./test_photos" 0 wMissing "abc" =
      ([], HandlerResult.notFound 404 "Archive does not exist or was removed.") :=
  archive_missing_path_404 "./test_photos" 0 wMissing "abc" rfl

/-- C2 counterexample: a key mapping to an existing path that is not a
directory is not rejected: the handler proceeds to streaming and spawns
the subprocess, contradicting the claim that it 404s for every key that
does not map to an existing directory. -/
theorem archive_file_not_directory_still_streams :
    wFile.path_exists (path_to_photos "./test_photos" "somefile.txt") = true ∧
    wFile.is_dir (path_to_photos "./test_photos" "somefile.txt") = false ∧
    (archive "./test_photos" 0 wFile "somefile.txt").2 = HandlerResult.response false ∧
    Event.spawn ZIP_CMD (path_to_photos "./test_photos" "somefile.txt") ∈
      (archive "./test_photos" 0 wFile "somefile.txt").1 := by
  refine ⟨rfl, rfl, ?_, ?_⟩ <;> decide

/-- C7 (amended): if the subprocess fails to launch the handler raises
a startup error and returns no success response, but the HTTP 200
status and headers have already been committed by the prepare step,
which runs before the launch attempt. -/
theorem archive_spawn_failure_raises (photo_dir : String) (delay : Nat)
    (w : World) (hash : String)
    (hex : w.path_exists (path_to_photos photo_dir hash) = true)
    (hfail : w.spawn_ok = false) :
    archive photo_dir delay w hash =
      ([Event.prepare 200 RESPONSE_HEADERS], HandlerResult.raisedSpawnError) := by
  simp [archive, hex, hfail]

/-- C7 witness: concrete failing launch. -/
theorem archive_spawn_failure_raises_witness :
    archive "./test_photos" 0 wNoSpawn "abc" =
      ([Event.prepare 200 RESPONSE_HEADERS], HandlerResult.raisedSpawnError) :=
  archive_spawn_failure_raises "./test_photos" 0 wNoSpawn "abc" rfl rfl

/-- C7 counterexample: when the launch fails the trace already contains
the committed HTTP 200 status line and headers, contradicting the claim
that no success status is committed for that request. -/
theorem archive_spawn_failure_after_200 :
    (archive "./test_photos" 0 wNoSpawn "abc").2 = HandlerResult.raisedSpawnError ∧
    Event.prepare 200 RESPONSE_HEADERS ∈ (archive "./test_photos" 0 wNoSpawn "abc").1 := by
  constructor <;> decide

/-- C10: without a --delay argument the service runs with delay 0, and
without a --path argument the archive root defaults to ./test_photos. -/
theorem main_defaults :
    main_delay none = 0 ∧ main_photo_dir none = "./test_photos" :=
  ⟨rfl, rfl⟩

theorem writtenBytes_cleanup (rc : Option Int) :
    writtenBytes (cleanupEvents rc) = [] := by
  cases rc <;> simp [cleanupEvents, writtenBytes]

/-- C3: with a normally terminating relay loop (every write succeeds)
the handler returns a successful response, the chunks written to the
response stream are exactly the chunks read from the compressor, in the
same order, and their concatenation is the full compressor output byte
for byte. -/
theorem archive_relays_all_bytes_in_order (photo_dir : String) (delay : Nat)
    (w : World) (hash : String)
    (hex : w.path_exists (path_to_photos photo_dir hash) = true)
    (hsp : w.spawn_ok = true)
    (hok : ∀ o ∈ w.write_outcomes, o = WriteOutcome.ok) :
    (archive photo_dir delay w hash).2 = HandlerResult.response false ∧
    writtenBytes (archive photo_dir delay w hash).1 = readChunks w.stdout ∧
    (writtenBytes (archive photo_dir delay w hash).1).flatten = w.stdout.flatten := by
  have hrel := relaySteps_allOk delay hash (readChunks w.stdout) w.write_outcomes hok
  have ha := archive_eq_streaming photo_dir delay w hash hex hsp
  have htr : (archive photo_dir delay w hash).1 =
      [Event.prepare 200 RESPONSE_HEADERS,
        Event.spawn ZIP_CMD (path_to_photos photo_dir hash)] ++
        ((readChunks w.stdout).flatMap fun c =>
          [Event.logChunk hash, Event.write c, Event.sleep delay]) ++
        cleanupEvents w.returncode_at_cleanup := by
    rw [ha, hrel]
  have hres : (archive photo_dir delay w hash).2 = HandlerResult.response false := by
    rw [ha, hrel]
  have h2 : writtenBytes (archive photo_dir delay w hash).1 = readChunks w.stdout := by
    rw [htr, writtenBytes_append, writtenBytes_append, writtenBytes_chunkTrace,
      writtenBytes_cleanup]
    simp [writtenBytes]
  exact ⟨hres, h2, by rw [h2, readChunks_flatten]⟩

/-- C3 witness: a concrete normally terminating run. -/
theorem archive_relays_all_bytes_in_order_witness :
    (archive "./test_photos" 0 wAllOk "abc").2 = HandlerResult.response false ∧
    writtenBytes (archive "./test_photos" 0 wAllOk "abc").1 = readChunks wAllOk.stdout ∧
    (writtenBytes (archive "./test_photos" 0 wAllOk "abc").1).flatten =
      wAllOk.stdout.flatten :=
  archive_relays_all_bytes_in_order "./test_photos" 0 wAllOk "abc" rfl rfl (by decide)

/-- C4: every chunk the relay loop reads is at most CHUNK_SIZE =
1024*100 bytes, and when all writes succeed the loop is exactly, per
chunk read: log, write the chunk (even a short or empty read), then
sleep `delay` seconds — including after the final chunk — and the loop
stops precisely when the read sequence reaches end of stream. -/
theorem relay_iteration_shape (delay : Nat) (hash : String)
    (stdout : List Bytes) (outs : List WriteOutcome)
    (hok : ∀ o ∈ outs, o = WriteOutcome.ok) :
    (∀ c ∈ readChunks stdout, c.length ≤ CHUNK_SIZE) ∧
    relaySteps delay hash (readChunks stdout) outs =
      ((readChunks stdout).flatMap fun c =>
        [Event.logChunk hash, Event.write c, Event.sleep delay],
       LoopResult.normal) :=
  ⟨readChunks_length_le stdout,
   relaySteps_allOk delay hash (readChunks stdout) outs hok⟩

/-- C4 witness: a concrete stream with a short and an empty read. -/
theorem relay_iteration_shape_witness :
    (∀ c ∈ readChunks sampleBytes, c.length ≤ CHUNK_SIZE) ∧
    relaySteps 2 "abc" (readChunks sampleBytes) [] =
      ((readChunks sampleBytes).flatMap fun c =>
        [Event.logChunk "abc", Event.write c, Event.sleep 2],
       LoopResult.normal) :=
  relay_iteration_shape 2 "abc" sampleBytes [] (by decide)

/-- C5: a ConnectionResetError raised by a response write is swallowed:
the handler still returns a response and logs the interrupted download;
any other error raised during the read/write cycle ends the loop with
that error and it propagates unchanged out of the handler. -/
theorem archive_reset_swallowed_others_propagate (photo_dir : String)
    (delay : Nat) (w : World) (hash : String)
    (hex : w.path_exists (path_to_photos photo_dir hash) = true)
    (hsp : w.spawn_ok = true) :
    ((relaySteps delay hash (readChunks w.stdout) w.write_outcomes).2 =
        LoopResult.connReset →
      (archive photo_dir delay w hash).2 = HandlerResult.response true ∧
      Event.logInterrupted hash ∈ (archive photo_dir delay w hash).1) ∧
    (∀ e, (relaySteps delay hash (readChunks w.stdout) w.write_outcomes).2 =
        LoopResult.err e →
      (archive photo_dir delay w hash).2 = HandlerResult.raised e) := by
  have ha := archive_eq_streaming photo_dir delay w hash hex hsp
  constructor
  · intro hrc
    rw [ha, hrc]
    refine ⟨rfl, ?_⟩
    simp
  · intro e hre
    rw [ha, hre]

/-- C5 witness: a concrete disconnected run and a concrete run with a
different write error. -/
theorem archive_reset_swallowed_others_propagate_witness :
    ((archive "./test_photos" 0 wReset "abc").2 = HandlerResult.response true ∧
      Event.logInterrupted "abc" ∈ (archive "./test_photos" 0 wReset "abc").1) ∧
    (archive "./test_photos" 0 wErr "abc").2 = HandlerResult.raised 7 :=
  ⟨(archive_reset_swallowed_others_propagate "./test_photos" 0 wReset "abc"
      rfl rfl).1 (by decide),
   (archive_reset_swallowed_others_propagate "./test_photos" 0 wErr "abc"
      rfl rfl).2 7 (by decide)⟩

theorem splitSlashAux_sep (xs ys cur : List Char) :
    splitSlashAux (xs ++ '/' :: ys) cur =
      splitSlashAux xs cur ++ splitSlashAux ys [] := by
  induction xs generalizing cur with
  | nil => simp [splitSlashAux]
  | cons c rest ih =>
    by_cases hc : c = '/'
    · simp [splitSlashAux, hc, ih]
    · simp [splitSlashAux, hc, ih]

theorem normSegs_append_skippable (l : List String) (s : String)
    (h : s = "" ∨ s = ".") : normSegs (l ++ [s]) = normSegs l := by
  simp only [normSegs, normAux_append]
  rcases h with rfl | rfl <;> simp [normAux]

theorem insideRoot_of_segments (root p : String) (S kk : List String)
    (hr : normSegs (splitSlash root) = normSegs S)
    (hq : splitSlash p = S ++ kk) (hpar : ".." ∉ kk) :
    insideRoot root p = true := by
  simp only [insideRoot, decide_eq_true_eq]
  rw [hq, hr, normSegs_append_no_parent S kk hpar]
  exact List.take_left _ _

theorem insideRoot_empty_root (p : String) : insideRoot "" p = true := by
  simp [insideRoot, splitSlash, splitSlashAux, normSegs, normAux]

theorem endsWithSlash_split (s : String) (h : endsWithSlash s = true) :
    ∃ xs, s.data = xs ++ ['/'] := by
  unfold endsWithSlash at h
  cases hl : s.data.getLast? with
  | none => rw [hl] at h; cases h
  | some c =>
    rw [hl] at h
    have hc : c = '/' := by simpa using h
    subst hc
    exact List.getLast?_eq_some_iff.mp hl

/-- C6 (amended): for every key that is not absolute (does not start
with a slash) and contains no parent-directory segments, the candidate
path computed by the handler's own join — `path_to_photos`, the
embedding of `os.path.join(photo_dir, archive_hash)` at src/server.py
line 16 — resolves inside the archive root.  The code performs no
sanitization, so keys with `..` segments, and absolute keys through
`os.path.join`'s absolute-component rule, can escape (see the
accompanying counterexample). -/
theorem joined_key_inside_root (root key : String)
    (habs : startsWithSlash key = false)
    (hpar : ".." ∉ splitSlash key) :
    insideRoot root (path_to_photos root key) = true := by
  have hjoin : path_to_photos root key =
      if root = "" ∨ endsWithSlash root then root ++ key
      else root ++ "/" ++ key := by
    unfold path_to_photos os_path_join
    simp [habs]
  by_cases hroot : root = "" ∨ endsWithSlash root
  · rw [hjoin, if_pos hroot]
    rcases hroot with hempty | hslash
    · subst hempty
      have hkey : ("" : String) ++ key = key := by
        apply String.ext
        simp [String.data_append]
      rw [hkey]
      exact insideRoot_empty_root key
    · obtain ⟨xs, hxs⟩ := endsWithSlash_split root hslash
      refine insideRoot_of_segments root _ (splitSlashAux xs [])
        (splitSlash key) ?_ ?_ hpar
      · show normSegs (splitSlash root) = _
        unfold splitSlash
        rw [hxs]
        rw [show xs ++ ['/'] = xs ++ '/' :: ([] : List Char) from rfl]
        rw [splitSlashAux_sep]
        exact normSegs_append_skippable _ _ (Or.inl rfl)
      · unfold splitSlash
        rw [String.data_append, hxs, List.append_assoc]
        exact splitSlashAux_sep xs key.data []
  · rw [hjoin, if_neg hroot]
    refine insideRoot_of_segments root _ (splitSlash root)
      (splitSlash key) rfl ?_ hpar
    unfold splitSlash
    rw [String.data_append, String.data_append]
    rw [show ("/" : String).data = ['/'] from rfl, List.append_assoc]
    exact splitSlashAux_sep root.data key.data []

/-- C6 witness: a concrete benign key stays inside the root under the
handler's own join. -/
theorem joined_key_inside_root_witness :
    insideRoot "./test_photos"
      (path_to_photos "./test_photos" "abc/photo1.jpg") = true :=
  joined_key_inside_root "./test_photos" "abc/photo1.jpg" rfl (by decide)

/-- C6 counterexample: the key ../../etc/passwd is accepted by the
handler (the joined path exists, so streaming proceeds and the
subprocess is spawned with it as working directory) yet the candidate
path resolves outside the archive root. -/
theorem archive_accepts_escaping_key :
    insideRoot "./test_photos"
      (path_to_photos "./test_photos" "../../etc/passwd") = false ∧
    Event.spawn ZIP_CMD (path_to_photos "./test_photos" "../../etc/passwd") ∈
      (archive "./test_photos" 0 wAllOk "../../etc/passwd").1 := by
  constructor <;> decide

/-- C8: on the streaming path the first trace event is the prepare
event committing status 200 together with the fixed headers, so the
headers are finalized before any body byte is written; the headers
carry the fixed Content-Disposition attachment filename. -/
theorem archive_headers_before_body (photo_dir : String) (delay : Nat)
    (w : World) (hash : String)
    (hex : w.path_exists (path_to_photos photo_dir hash) = true)
    (hsp : w.spawn_ok = true) :
    (∃ rest, (archive photo_dir delay w hash).1 =
        Event.prepare 200 RESPONSE_HEADERS :: rest) ∧
    ("Content-Disposition", "Attachment;filename=wedding_photos.zip") ∈
      RESPONSE_HEADERS := by
  have ha := archive_eq_streaming photo_dir delay w hash hex hsp
  refine ⟨?_, by decide⟩
  rw [ha]
  cases hrel : (relaySteps delay hash (readChunks w.stdout) w.write_outcomes).2 <;>
    exact ⟨_, rfl⟩

/-- C8 witness: a concrete successful run. -/
theorem archive_headers_before_body_witness :
    (∃ rest, (archive "./test_photos" 0 wAllOk "abc").1 =
        Event.prepare 200 RESPONSE_HEADERS :: rest) ∧
    ("Content-Disposition", "Attachment;filename=wedding_photos.zip") ∈
      RESPONSE_HEADERS :=
  archive_headers_before_body "./test_photos" 0 wAllOk "abc" rfl rfl

end Server
